import Mathlib

/-!
Verification of the PDF-to-Markdown batch converter (`convert_pdfs.py`).

The program is shallowly embedded: Python strings become `List Char`
(`PyStr`), file contents become `List Nat` byte lists, the PDF library is
modelled as data (each page carries the outcome of `get_text` /
`get_images`, each listed image the outcome of `extract_image`), and
filesystem writes become explicit association lists threaded through the
batch driver.  Exceptions are modelled with `Except`.
-/

/-- Python strings are modelled as lists of characters. -/
abbrev PyStr := List Char

/-- Shorthand turning a Lean string literal into the `PyStr` model. -/
def str (s : String) : PyStr := s.data

/-- Binary file contents (the bytes of an extracted image). -/
abbrev Bytes := List Nat

/-- Decimal rendering of a natural number, as Python's `str(n)` produces
inside an f-string.  `Nat.toDigits 10` is exactly big-endian decimal with
`"0"` for zero. -/
def natRepr (n : Nat) : PyStr := Nat.toDigits 10 n

/-- Python `c.isspace()`-style whitespace test used by `str.strip()`
(ASCII fragment: space, tab, newline, carriage return, vertical tab,
form feed). -/
def pyIsSpace (c : Char) : Bool :=
  c = ' ' || c = '\t' || c = '\n' || c = '\r' || c = '\x0b' || c = '\x0c'

/-- Python `str.strip()`: drop leading and trailing whitespace. -/
def pyStrip (s : PyStr) : PyStr :=
  ((s.dropWhile pyIsSpace).reverse.dropWhile pyIsSpace).reverse

/-- Python `str.split('\n')`: split on every newline, keeping empty
pieces; the result is always non-empty. -/
def splitLines : PyStr → List PyStr
  | [] => [[]]
  | c :: cs =>
    if c = '\n' then [] :: splitLines cs
    else
      match splitLines cs with
      | [] => [[c]]
      | l :: ls => (c :: l) :: ls

/-- Python `'\n'.join(...)` on the model strings. -/
def joinNL : List PyStr → PyStr
  | [] => []
  | [s] => s
  | s :: rest => s ++ '\n' :: joinNL rest

/-- Python `'\n\n'.join(...)` (used for the image reference block). -/
def joinNL2 : List PyStr → PyStr
  | [] => []
  | [s] => s
  | s :: rest => s ++ '\n' :: '\n' :: joinNL2 rest

/-- Python `str.replace(old, new)` for single characters (the title uses
`replace('-', ' ')`). -/
def pyReplaceChar (old new : Char) (s : PyStr) : PyStr :=
  s.map fun c => if c = old then new else c

/-- Helper for `pyTitle`: the boolean records whether the previous
character was alphabetic (Python: a cased character). -/
def pyTitleAux : Bool → PyStr → PyStr
  | _, [] => []
  | prevAlpha, c :: cs =>
    (if c.isAlpha then (if prevAlpha then c.toLower else c.toUpper) else c)
      :: pyTitleAux c.isAlpha cs

/-- Python `str.title()` (ASCII fragment): the first letter of every
maximal run of letters is uppercased, the rest lowercased, other
characters pass through. -/
def pyTitle (s : PyStr) : PyStr := pyTitleAux false s

deriving instance DecidableEq for Except

/-- Outcome of one embedded image as reported by the PDF library:
`extract` is the result of `doc.extract_image(xref)`, either the raw
bytes together with the detected extension, or the raised exception's
message. -/
structure ImageInfo where
  extract : Except PyStr (Bytes × PyStr)
deriving DecidableEq

/-- One PDF page as seen through the library: the outcome of
`page.get_text("text")` and of `page.get_images(full=True)`. -/
structure Page where
  gettext : Except PyStr PyStr
  getimages : Except PyStr (List ImageInfo)
deriving DecidableEq

/-- One input PDF file: its filename stem, its full filename, and the
outcome of `fitz.open` (the ordered page list, or the raised error). -/
structure PDFFile where
  stem : PyStr
  name : PyStr
  doc : Except PyStr (List Page)
deriving DecidableEq

/-- Filesystem side effects of a piece of the program: directories
created, binary files written (in order), and warning lines printed. -/
structure Effects where
  dirs : List PyStr
  writes : List (PyStr × Bytes)
  warnings : List PyStr
deriving DecidableEq

/-- Concatenation of effect logs, in program order. -/
def Effects.append (a b : Effects) : Effects :=
  ⟨a.dirs ++ b.dirs, a.writes ++ b.writes, a.warnings ++ b.warnings⟩

/-- Empty effect log. -/
def Effects.none : Effects := ⟨[], [], []⟩

/-- The image filename `f"page{p}_img{i}.{ext}"` built at line 35 of the
source (`p` is already the 1-indexed page number there). -/
def fname (p i : Nat) (ext : PyStr) : PyStr :=
  str "page" ++ natRepr p ++ str "_img" ++ natRepr i ++ str "." ++ ext

/-- The warning printed when one image fails to extract (line 44). -/
def warnMsg (img_idx page_num : Nat) (e : PyStr) : PyStr :=
  str "    Warning: Could not extract image " ++ natRepr img_idx ++
    str " from page " ++ natRepr (page_num + 1) ++ str ": " ++ e

/-- The `for img_idx, img_info in enumerate(image_list, 1)` loop of
`extract_images` (lines 28-44): returns the accumulated markdown
references, the files written, and the warnings printed. -/
def extractLoop (pdf_name : PyStr) (page_num : Nat) (pdf_images_dir : PyStr) :
    List ImageInfo → Nat → List PyStr × List (PyStr × Bytes) × List PyStr
  | [], _ => ([], [], [])
  | img :: rest, img_idx =>
    match img.extract with
    | .ok be =>
      let image_filename := fname (page_num + 1) img_idx be.2
      let image_path := pdf_images_dir ++ '/' :: image_filename
      let relative_path := str "images/" ++ pdf_name ++ '/' :: image_filename
      let r := extractLoop pdf_name page_num pdf_images_dir rest (img_idx + 1)
      ((str "![Image](" ++ relative_path ++ str ")") :: r.1,
        (image_path, be.1) :: r.2.1, r.2.2)
    | .error e =>
      let r := extractLoop pdf_name page_num pdf_images_dir rest (img_idx + 1)
      (r.1, r.2.1, warnMsg img_idx page_num e :: r.2.2)

/-- Lines 17-46 of the source: `extract_images`.  Raises exactly when
`page.get_images` raises; otherwise returns the markdown image
references together with the filesystem effects (the per-document image
directory is created only when the image list is non-empty). -/
def extract_images (page : Page) (pdf_name : PyStr) (page_num : Nat)
    (images_dir : PyStr) : Except PyStr (List PyStr × Effects) :=
  match page.getimages with
  | .error e => .error e
  | .ok image_list =>
    if image_list.isEmpty then .ok ([], Effects.none)
    else
      let pdf_images_dir := images_dir ++ '/' :: pdf_name
      let r := extractLoop pdf_name page_num pdf_images_dir image_list 1
      .ok (r.1, ⟨[pdf_images_dir], r.2.1, r.2.2⟩)

/-- The page loop of `convert_pdf_to_markdown` (lines 61-87): processes
the pages in order starting at index `page_num`, producing the markdown
fragments appended for those pages plus the accumulated effects.  A
failure of `get_text` or `get_images` aborts the loop, keeping the
effects performed so far. -/
def convertPages (pdf_name images_dir : PyStr) :
    List Page → Nat → Effects × Except PyStr (List PyStr)
  | [], _ => (Effects.none, .ok [])
  | page :: rest, page_num =>
    match page.gettext with
    | .error e => (Effects.none, .error e)
    | .ok text =>
      let textFrags : List PyStr :=
        if (pyStrip text).isEmpty then []
        else
          let processed_lines := ((splitLines text).map pyStrip).filter
            fun l => !l.isEmpty
          [str "\n## Page " ++ natRepr (page_num + 1) ++ str "\n",
            joinNL processed_lines, str "\n"]
      match extract_images page pdf_name page_num images_dir with
      | .error e => (Effects.none, .error e)
      | .ok re =>
        let imgFrags : List PyStr :=
          if re.1.isEmpty then []
          else [str "\n### Images from Page " ++ natRepr (page_num + 1) ++ str "\n",
            joinNL2 re.1, str "\n"]
        let r := convertPages pdf_name images_dir rest (page_num + 1)
        (re.2.append r.1,
          match r.2 with
          | .error e => .error e
          | .ok frags => .ok (textFrags ++ imgFrags ++ frags))

/-- Lines 49-96 of the source: `convert_pdf_to_markdown`.  Returns the
filesystem effects of image extraction together with either the raised
error or the markdown file to be written: its path
`<output_dir>/<stem>.md` and its full text, `'\n'.join(...)` of the
title, provenance and separator fragments followed by the page
fragments. -/
def convert_pdf_to_markdown (pdf : PDFFile) (output_dir images_dir : PyStr) :
    Effects × Except PyStr (PyStr × PyStr) :=
  let pdf_name := pdf.stem
  match pdf.doc with
  | .error e => (Effects.none, .error e)
  | .ok pages =>
    let header : List PyStr :=
      [str "# " ++ pyTitle (pyReplaceChar '-' ' ' pdf_name) ++ str "\n",
        str "*Converted from: " ++ pdf.name ++ str "*\n",
        str "---\n"]
    let r := convertPages pdf_name images_dir pages 0
    match r.2 with
    | .error e => (r.1, .error e)
    | .ok frags =>
      (r.1, .ok (output_dir ++ '/' :: pdf_name ++ str ".md", joinNL (header ++ frags)))

/-- Association-list filesystem: the most recent write of a path is
found first. -/
def fsWrite {α : Type} (fs : List (PyStr × α)) (p : PyStr) (c : α) :
    List (PyStr × α) := (p, c) :: fs

/-- Reading a path from the modelled filesystem. -/
def fsRead {α : Type} (fs : List (PyStr × α)) (p : PyStr) : Option α :=
  (fs.find? fun e => e.1 == p).map fun e => e.2

/-- Applying a sequence of writes in order. -/
def applyWrites {α : Type} (fs : List (PyStr × α)) (ws : List (PyStr × α)) :
    List (PyStr × α) := ws.foldl (fun f w => fsWrite f w.1 w.2) fs

/-- State threaded through the batch loop of `main` (lines 120-124):
everything printed so far, the markdown files on disk and the image
files on disk. -/
structure BatchState where
  logs : List PyStr
  mdfs : List (PyStr × PyStr)
  imgfs : List (PyStr × Bytes)
deriving DecidableEq

/-- One iteration of the batch loop: `try: convert_pdf_to_markdown(...)
except Exception as e: print(f"  Error converting ...")`.  On success
the markdown file is written (overwriting); either way the image files
extracted before any failure are on disk and the warnings are in the
log. -/
def runFile (output_dir images_dir : PyStr) (st : BatchState) (pdf : PDFFile) :
    BatchState :=
  let logs0 := st.logs ++ [str "Converting: " ++ pdf.name]
  match convert_pdf_to_markdown pdf output_dir images_dir with
  | (eff, .ok pc) =>
    { logs := logs0 ++ eff.warnings ++ [str "  -> Created: " ++ pdf.stem ++ str ".md"],
      mdfs := fsWrite st.mdfs pc.1 pc.2,
      imgfs := applyWrites st.imgfs eff.writes }
  | (eff, .error e) =>
    { logs := logs0 ++ eff.warnings ++
        [str "  Error converting " ++ pdf.name ++ str ": " ++ e],
      mdfs := st.mdfs,
      imgfs := applyWrites st.imgfs eff.writes }

/-- The batch loop of `main` over the sorted list of PDF files. -/
def mainLoop (output_dir images_dir : PyStr) (files : List PDFFile)
    (st : BatchState) : BatchState :=
  files.foldl (runFile output_dir images_dir) st

/-- The markdown writes `main` performs, in order: one per successfully
converted file. -/
def mdWrites (output_dir images_dir : PyStr) (files : List PDFFile) :
    List (PyStr × PyStr) :=
  files.filterMap fun f =>
    match convert_pdf_to_markdown f output_dir images_dir with
    | (_, .ok pc) => some pc
    | (_, .error _) => Option.none

/-! ### Decimal rendering: digit characters and injectivity -/

theorem digitChar_isDigit : ∀ d < 10, (Nat.digitChar d).isDigit = true := by
  decide

theorem digitChar_inj : ∀ d < 10, ∀ e < 10, Nat.digitChar d = Nat.digitChar e → d = e := by
  decide

theorem toDigitsCore_eq_digits (n : Nat) : ∀ fuel ds, n < fuel → 0 < n →
    Nat.toDigitsCore 10 fuel n ds =
      ((Nat.digits 10 n).map Nat.digitChar).reverse ++ ds := by
  induction n using Nat.strong_induction_on with
  | _ n ih =>
    intro fuel ds hfuel hn
    match fuel with
    | 0 => omega
    | fuel + 1 =>
      rw [Nat.toDigitsCore]
      rw [Nat.digits_def' (b := 10) (by norm_num) hn]
      by_cases h10 : n / 10 = 0
      · simp only [h10, if_pos]
        have : Nat.digits 10 (n / 10) = [] := by rw [h10]; simp
        simp [this, Nat.mod_eq_of_lt (by omega : n < 10)]
      · rw [if_neg h10]
        rw [ih (n / 10) (Nat.div_lt_self hn (by norm_num)) fuel _
          (by omega) (Nat.pos_of_ne_zero h10)]
        simp

theorem natRepr_eq_digits (n : Nat) (hn : 0 < n) :
    natRepr n = ((Nat.digits 10 n).map Nat.digitChar).reverse := by
  have := toDigitsCore_eq_digits n (n + 1) [] (by omega) hn
  simpa [natRepr, Nat.toDigits] using this

theorem natRepr_isDigit (n : Nat) : ∀ c ∈ natRepr n, c.isDigit = true := by
  rcases Nat.eq_zero_or_pos n with h | h
  · subst h; decide
  · rw [natRepr_eq_digits n h]
    intro c hc
    simp only [List.mem_reverse, List.mem_map] at hc
    obtain ⟨d, hd, rfl⟩ := hc
    exact digitChar_isDigit d (Nat.digits_lt_base (by norm_num) hd)

theorem map_digitChar_inj {l₁ l₂ : List Nat} (h₁ : ∀ d ∈ l₁, d < 10)
    (h₂ : ∀ d ∈ l₂, d < 10) (h : l₁.map Nat.digitChar = l₂.map Nat.digitChar) :
    l₁ = l₂ := by
  induction l₁ generalizing l₂ with
  | nil => cases l₂ <;> simp_all
  | cons a t ih =>
    cases l₂ with
    | nil => simp_all
    | cons b t₂ =>
      simp only [List.map_cons, List.cons.injEq] at h
      have hab : a = b := digitChar_inj a (h₁ a (by simp)) b (h₂ b (by simp)) h.1
      have := ih (fun d hd => h₁ d (by simp [hd])) (fun d hd => h₂ d (by simp [hd])) h.2
      simp [hab, this]

theorem natRepr_inj {a b : Nat} (h : natRepr a = natRepr b) : a = b := by
  rcases Nat.eq_zero_or_pos a with ha | ha <;> rcases Nat.eq_zero_or_pos b with hb | hb
  · omega
  · exfalso
    subst ha
    rw [natRepr_eq_digits b hb] at h
    have h' : (Nat.digits 10 b).map Nat.digitChar = ['0'] := by
      have := congrArg List.reverse h
      simpa using this.symm
    have hdd : Nat.digits 10 b = [0] := by
      rcases hd : Nat.digits 10 b with _ | ⟨d, ds⟩
      · rw [hd] at h'; simp at h'
      · rw [hd] at h'
        simp only [List.map_cons, List.cons.injEq, List.map_eq_nil_iff] at h'
        have hd10 : d < 10 := Nat.digits_lt_base (by norm_num) (by rw [hd]; simp)
        have hd0 : d = 0 := digitChar_inj d hd10 0 (by norm_num) (by simpa using h'.1)
        rw [hd0, h'.2]
    have hob := Nat.ofDigits_digits 10 b
    rw [hdd] at hob
    simp [Nat.ofDigits] at hob
    omega
  · exfalso
    subst hb
    rw [natRepr_eq_digits a ha] at h
    have h' : (Nat.digits 10 a).map Nat.digitChar = ['0'] := by
      have := congrArg List.reverse h
      simpa using this
    have hdd : Nat.digits 10 a = [0] := by
      rcases hd : Nat.digits 10 a with _ | ⟨d, ds⟩
      · rw [hd] at h'; simp at h'
      · rw [hd] at h'
        simp only [List.map_cons, List.cons.injEq, List.map_eq_nil_iff] at h'
        have hd10 : d < 10 := Nat.digits_lt_base (by norm_num) (by rw [hd]; simp)
        have hd0 : d = 0 := digitChar_inj d hd10 0 (by norm_num) (by simpa using h'.1)
        rw [hd0, h'.2]
    have hoa := Nat.ofDigits_digits 10 a
    rw [hdd] at hoa
    simp [Nat.ofDigits] at hoa
    omega
  · rw [natRepr_eq_digits a ha, natRepr_eq_digits b hb] at h
    have h' := congrArg List.reverse h
    simp only [List.reverse_reverse] at h'
    have := map_digitChar_inj
      (fun d hd => Nat.digits_lt_base (by norm_num) hd)
      (fun d hd => Nat.digits_lt_base (by norm_num) hd) h'
    have ha' := Nat.ofDigits_digits 10 a
    have hb' := Nat.ofDigits_digits 10 b
    rw [← ha', ← hb', this]

/-! ### Injectivity of the image filenames -/

theorem digit_block_split {a₁ a₂ t₁ t₂ : PyStr} {x y : Char}
    (h : a₁ ++ x :: t₁ = a₂ ++ y :: t₂)
    (h₁ : ∀ c ∈ a₁, c.isDigit = true) (h₂ : ∀ c ∈ a₂, c.isDigit = true)
    (hx : x.isDigit = false) (hy : y.isDigit = false) :
    a₁ = a₂ ∧ x = y ∧ t₁ = t₂ := by
  induction a₁ generalizing a₂ with
  | nil =>
    cases a₂ with
    | nil => simpa using h
    | cons b bs =>
      exfalso
      simp only [List.nil_append, List.cons_append, List.cons.injEq] at h
      have : b.isDigit = true := h₂ b (by simp)
      rw [← h.1] at this
      rw [hx] at this
      exact Bool.false_ne_true this
  | cons a as ih =>
    cases a₂ with
    | nil =>
      exfalso
      simp only [List.nil_append, List.cons_append, List.cons.injEq] at h
      have : a.isDigit = true := h₁ a (by simp)
      rw [h.1, hy] at this
      exact Bool.false_ne_true this
    | cons b bs =>
      simp only [List.cons_append, List.cons.injEq] at h
      have := ih h.2 (fun c hc => h₁ c (by simp [hc])) (fun c hc => h₂ c (by simp [hc]))
      exact ⟨by simp [h.1, this.1], this.2.1, this.2.2⟩

theorem fname_inj {p i p' i' : Nat} {e e' : PyStr}
    (h : fname p i e = fname p' i' e') : p = p' ∧ i = i' ∧ e = e' := by
  unfold fname at h
  have h0 : natRepr p ++ '_' :: (str "img" ++ natRepr i ++ '.' :: e) =
      natRepr p' ++ '_' :: (str "img" ++ natRepr i' ++ '.' :: e') := by
    have := h
    simp only [str, List.append_assoc] at this ⊢
    exact List.append_cancel_left this
  have s1 := digit_block_split h0 (natRepr_isDigit p) (natRepr_isDigit p')
    (by decide) (by decide)
  have hp : p = p' := natRepr_inj s1.1
  have h1 : natRepr i ++ '.' :: e = natRepr i' ++ '.' :: e' := by
    have := s1.2.2
    simp only [str, List.append_assoc] at this
    exact List.append_cancel_left this
  have s2 := digit_block_split h1 (natRepr_isDigit i) (natRepr_isDigit i')
    (by decide) (by decide)
  exact ⟨hp, natRepr_inj s2.1, s2.2.2⟩

/-! ### Behaviour of the image-extraction loop -/

/-- The markdown reference emitted for one written image file. -/
def mdRef (pdf_name f : PyStr) : PyStr :=
  str "![Image](images/" ++ pdf_name ++ '/' :: f ++ str ")"

theorem mdRef_eq (n f : PyStr) :
    str "![Image](" ++ (str "images/" ++ n ++ '/' :: f) ++ str ")" = mdRef n f := by
  simp [mdRef, str, List.append_assoc]

theorem mdRef_eq2 (n f : PyStr) :
    str "![Image](" ++ (str "images/" ++ (n ++ '/' :: (f ++ str ")"))) = mdRef n f := by
  simp [mdRef, str, List.append_assoc]

theorem extractLoop_append (n : PyStr) (pn : Nat) (D : PyStr)
    (xs ys : List ImageInfo) (i : Nat) :
    extractLoop n pn D (xs ++ ys) i =
      ((extractLoop n pn D xs i).1 ++ (extractLoop n pn D ys (i + xs.length)).1,
        (extractLoop n pn D xs i).2.1 ++ (extractLoop n pn D ys (i + xs.length)).2.1,
        (extractLoop n pn D xs i).2.2 ++ (extractLoop n pn D ys (i + xs.length)).2.2) := by
  induction xs generalizing i with
  | nil => simp [extractLoop]
  | cons img rest ih =>
    rcases hx : img.extract with e | be <;>
      simp [extractLoop, hx, ih (i + 1), Nat.add_assoc, Nat.add_comm 1 rest.length]

theorem extractLoop_writes_mem (n : PyStr) (pn : Nat) (D : PyStr)
    (imgs : List ImageInfo) (i : Nat) :
    ∀ w ∈ (extractLoop n pn D imgs i).2.1, ∃ j e b, i ≤ j ∧ j < i + imgs.length ∧
      w = (D ++ '/' :: fname (pn + 1) j e, b) := by
  induction imgs generalizing i with
  | nil => simp [extractLoop]
  | cons img rest ih =>
    intro w hw
    rcases hx : img.extract with e | be <;> simp [extractLoop, hx] at hw
    · obtain ⟨j, e', b, h1, h2, h3⟩ := ih (i + 1) w hw
      exact ⟨j, e', b, by omega, by simp only [List.length_cons]; omega, h3⟩
    · rcases hw with h | hw
      · exact ⟨i, be.2, be.1, Nat.le_refl i, by simp only [List.length_cons]; omega, by simp [h]⟩
      · obtain ⟨j, e', b, h1, h2, h3⟩ := ih (i + 1) w hw
        exact ⟨j, e', b, by omega, by simp only [List.length_cons]; omega, h3⟩

theorem extractLoop_writes_nodup (n : PyStr) (pn : Nat) (D : PyStr)
    (imgs : List ImageInfo) (i : Nat) :
    ((extractLoop n pn D imgs i).2.1.map Prod.fst).Nodup := by
  induction imgs generalizing i with
  | nil => simp [extractLoop]
  | cons img rest ih =>
    rcases hx : img.extract with e | be
    · simp only [extractLoop, hx]
      exact ih (i + 1)
    · simp only [extractLoop, hx, List.map_cons, List.nodup_cons]
      refine ⟨?_, ih (i + 1)⟩
      intro hmem
      simp only [List.mem_map] at hmem
      obtain ⟨w, hw, hweq⟩ := hmem
      obtain ⟨j, e', b, h1, _, h3⟩ := extractLoop_writes_mem n pn D rest (i + 1) w hw
      rw [h3] at hweq
      simp only at hweq
      have : fname (pn + 1) j e' = fname (pn + 1) i be.2 := by
        have := List.append_cancel_left hweq
        simpa using this
      have := (fname_inj this).2.1
      omega

theorem extractLoop_refs_mem (n : PyStr) (pn : Nat) (D : PyStr)
    (imgs : List ImageInfo) (i : Nat) :
    ∀ r ∈ (extractLoop n pn D imgs i).1, ∃ j e, r = mdRef n (fname (pn + 1) j e) ∧
      ∃ im ∈ imgs, ∃ b, im.extract = .ok (b, e) := by
  induction imgs generalizing i with
  | nil => simp [extractLoop]
  | cons img rest ih =>
    intro r hr
    rcases hx : img.extract with e | be <;> simp [extractLoop, hx] at hr
    · obtain ⟨j, e', hr1, im, him, b, hb⟩ := ih (i + 1) r hr
      exact ⟨j, e', hr1, im, by simp [him], b, hb⟩
    · rcases hr with h | hr
      · refine ⟨i, be.2, ?_, img, by simp, be.1, by simp [hx]⟩
        rw [h]
        exact mdRef_eq2 n (fname (pn + 1) i be.2)
      · obtain ⟨j, e', hr1, im, him, b, hb⟩ := ih (i + 1) r hr
        exact ⟨j, e', hr1, im, by simp [him], b, hb⟩

theorem extractLoop_ok_spec (n : PyStr) (pn : Nat) (D : PyStr)
    (imgs : List ImageInfo) (i : Nat)
    (hall : ∀ im ∈ imgs, ∃ b e, im.extract = .ok (b, e)) :
    (extractLoop n pn D imgs i).1.length = imgs.length ∧
    (extractLoop n pn D imgs i).2.2 = [] ∧
    ∀ k, k < imgs.length → ∃ im b e, imgs.get? k = some im ∧
      im.extract = .ok (b, e) ∧
      (extractLoop n pn D imgs i).1.get? k =
        some (mdRef n (fname (pn + 1) (i + k) e)) ∧
      (extractLoop n pn D imgs i).2.1.get? k =
        some (D ++ '/' :: fname (pn + 1) (i + k) e, b) := by
  induction imgs generalizing i with
  | nil => simp [extractLoop]
  | cons img rest ih =>
    obtain ⟨b, e, hbe⟩ := hall img (by simp)
    have ihr := ih (i + 1) (fun im him => hall im (by simp [him]))
    simp only [extractLoop, hbe]
    refine ⟨by simp [ihr.1], by simp [ihr.2.1], ?_⟩
    intro k hk
    match k with
    | 0 =>
      refine ⟨img, b, e, by simp, hbe, ?_, by simp⟩
      simp only [List.get?_cons_zero, Nat.add_zero, Option.some.injEq]
      exact mdRef_eq n (fname (pn + 1) i e)
    | k + 1 =>
      obtain ⟨im, b', e', h1, h2, h3, h4⟩ := ihr.2.2 k (by simpa using hk)
      refine ⟨im, b', e', by simpa using h1, h2, ?_, ?_⟩
      · simpa [Nat.add_assoc, Nat.add_comm 1 k] using h3
      · simpa [Nat.add_assoc, Nat.add_comm 1 k] using h4

/-! ### Filesystem lemmas -/

/-- The last write of path `p` in a write sequence, if any. -/
def lastWrite {α : Type} (ws : List (PyStr × α)) (p : PyStr) : Option α :=
  (ws.reverse.find? fun w => w.1 == p).map fun w => w.2

theorem fsRead_fsWrite {α : Type} (fs : List (PyStr × α)) (q p : PyStr) (c : α) :
    fsRead (fsWrite fs p c) q = if p = q then some c else fsRead fs q := by
  unfold fsRead fsWrite
  rw [List.find?]
  by_cases h : p = q
  · rw [if_pos h, show ((p, c).1 == q) = true from beq_iff_eq.2 h]
    rfl
  · rw [if_neg h, show ((p, c).1 == q) = false from beq_eq_false_iff_ne.2 h]

theorem fsRead_applyWrites {α : Type} (fs : List (PyStr × α))
    (ws : List (PyStr × α)) (p : PyStr) :
    fsRead (applyWrites fs ws) p = (lastWrite ws p).or (fsRead fs p) := by
  induction ws generalizing fs with
  | nil => simp [applyWrites, lastWrite, List.find?]
  | cons w ws ih =>
    have hstep : applyWrites fs (w :: ws) = applyWrites (fsWrite fs w.1 w.2) ws := rfl
    rw [hstep, ih]
    unfold lastWrite
    rw [List.reverse_cons, List.find?_append]
    rcases hf : ws.reverse.find? (fun v => v.1 == p) with _ | v
    · rw [fsRead_fsWrite]
      by_cases hw : w.1 = p
      · have hb : (w.1 == p) = true := beq_iff_eq.2 hw
        simp [List.find?, hw, hb, hf]
      · have hb : (w.1 == p) = false := beq_eq_false_iff_ne.2 hw
        simp [List.find?, hw, hb, hf]
    · simp [hf]

theorem lastWrite_not_mem {α : Type} {ws : List (PyStr × α)} {p : PyStr}
    (h : p ∉ ws.map Prod.fst) : lastWrite ws p = Option.none := by
  unfold lastWrite
  have hn : ws.reverse.find? (fun w => w.1 == p) = Option.none := by
    apply List.find?_eq_none.2
    intro w hw hc
    simp only [List.mem_reverse] at hw
    exact h (List.mem_map.2 ⟨w, hw, by simpa using (beq_iff_eq.1 hc)⟩)
  rw [hn]
  rfl

theorem lastWrite_mem_nodup {α : Type} {ws : List (PyStr × α)} {p : PyStr} {b : α}
    (hnd : (ws.map Prod.fst).Nodup) (hmem : (p, b) ∈ ws) :
    lastWrite ws p = some b := by
  induction ws with
  | nil => simp at hmem
  | cons w ws ih =>
    simp only [List.map_cons, List.nodup_cons] at hnd
    rcases List.mem_cons.1 hmem with h | h
    · have hp : p ∉ ws.map Prod.fst := by rw [← h] at hnd; exact hnd.1
      unfold lastWrite
      rw [List.reverse_cons, List.find?_append]
      have hn : ws.reverse.find? (fun v => v.1 == p) = Option.none := by
        apply List.find?_eq_none.2
        intro v hv hc
        exact hp (List.mem_map.2 ⟨v, by simpa using hv, by simpa using (beq_iff_eq.1 hc)⟩)
      rw [hn]
      simp [List.find?, ← h]
    · have hlw := ih hnd.2 h
      unfold lastWrite at hlw ⊢
      rw [List.reverse_cons, List.find?_append]
      rcases hf : ws.reverse.find? (fun v => v.1 == p) with _ | v
      · rw [hf] at hlw; simp at hlw
      · rw [hf] at hlw ⊢
        exact hlw

theorem fsRead_applyWrites_nodup {α : Type} {ws : List (PyStr × α)} {p : PyStr}
    {b : α} (fs : List (PyStr × α)) (hnd : (ws.map Prod.fst).Nodup)
    (hmem : (p, b) ∈ ws) : fsRead (applyWrites fs ws) p = some b := by
  rw [fsRead_applyWrites, lastWrite_mem_nodup hnd hmem]
  rfl

/-! ### Line structure of the produced markdown -/

theorem splitLines_ne_nil (s : PyStr) : splitLines s ≠ [] := by
  match s with
  | [] => simp [splitLines]
  | c :: cs =>
    rw [splitLines]
    rcases h : splitLines cs with _ | ⟨l, ls⟩ <;> split <;> simp_all

theorem splitLines_append_newline (a b : PyStr) :
    splitLines (a ++ '\n' :: b) = splitLines a ++ splitLines b := by
  induction a with
  | nil => simp [splitLines]
  | cons c cs ih =>
    rw [List.cons_append, splitLines, splitLines]
    by_cases hc : c = '\n'
    · rw [if_pos hc, if_pos hc, ih]
      simp
    · rw [if_neg hc, if_neg hc, ih]
      rcases h : splitLines cs with _ | ⟨l, ls⟩
      · exact absurd h (splitLines_ne_nil cs)
      · simp

theorem splitLines_no_newline {l : PyStr} (h : '\n' ∉ l) : splitLines l = [l] := by
  induction l with
  | nil => rfl
  | cons c cs ih =>
    simp only [List.mem_cons, not_or] at h
    rw [splitLines, if_neg (fun hc => h.1 hc.symm), ih h.2]

theorem mem_of_mem_splitLines {s l : PyStr} {c : Char}
    (hl : l ∈ splitLines s) (hc : c ∈ l) : c ∈ s := by
  induction s generalizing l with
  | nil =>
    simp [splitLines] at hl
    subst hl
    simp at hc
  | cons d ds ih =>
    rw [splitLines] at hl
    split at hl
    · rcases List.mem_cons.1 hl with h | h
      · subst h; simp at hc
      · exact List.mem_cons_of_mem d (ih h hc)
    · rcases hsp : splitLines ds with _ | ⟨l', ls⟩
      · exact absurd hsp (splitLines_ne_nil ds)
      · rw [hsp] at hl
        rcases List.mem_cons.1 hl with h | h
        · subst h
          rcases List.mem_cons.1 hc with h' | h'
          · simp [h']
          · exact List.mem_cons_of_mem d (ih (by rw [hsp]; simp) h')
        · exact List.mem_cons_of_mem d (ih (by rw [hsp]; simp [h]) hc)

theorem newline_not_mem_splitLines {s l : PyStr} (hl : l ∈ splitLines s) :
    '\n' ∉ l := by
  induction s generalizing l with
  | nil =>
    simp [splitLines] at hl
    subst hl
    simp
  | cons d ds ih =>
    rw [splitLines] at hl
    split at hl
    · rcases List.mem_cons.1 hl with h | h
      · subst h; simp
      · exact ih h
    · next hd =>
      rcases hsp : splitLines ds with _ | ⟨l', ls⟩
      · exact absurd hsp (splitLines_ne_nil ds)
      · rw [hsp] at hl
        rcases List.mem_cons.1 hl with h | h
        · subst h
          intro hc
          rcases List.mem_cons.1 hc with h' | h'
          · exact hd h'.symm
          · exact ih (l := l') (by rw [hsp]; simp) h'
        · exact ih (by rw [hsp]; simp [h])

theorem flatten_map_singleton (L : List PyStr) :
    (L.map fun l => [l]).flatten = L := by
  induction L with
  | nil => rfl
  | cons f fs ih => simp [ih]

theorem splitLines_joinNL (L : List PyStr) (hL : L ≠ []) :
    splitLines (joinNL L) = (L.map splitLines).flatten := by
  induction L with
  | nil => simp at hL
  | cons f fs ih =>
    rcases fs with _ | ⟨g, gs⟩
    · simp [joinNL]
    · have hj : joinNL (f :: g :: gs) = f ++ '\n' :: joinNL (g :: gs) := rfl
      rw [hj, splitLines_append_newline, ih (by simp)]
      simp

theorem splitLines_joinNL_id {L : List PyStr} (hL : L ≠ [])
    (h : ∀ l ∈ L, '\n' ∉ l) : splitLines (joinNL L) = L := by
  rw [splitLines_joinNL L hL]
  have hmap : L.map splitLines = L.map fun l => [l] := by
    apply List.map_congr_left
    intro l hl
    exact splitLines_no_newline (h l hl)
  rw [hmap, flatten_map_singleton]

theorem mem_splitLines_joinNL2 {refs : List PyStr}
    (h : ∀ r ∈ refs, '\n' ∉ r) :
    ∀ l ∈ splitLines (joinNL2 refs), l = [] ∨ l ∈ refs := by
  induction refs with
  | nil => intro l hl; simp [joinNL2, splitLines] at hl; simp [hl]
  | cons f fs ih =>
    rcases fs with _ | ⟨g, gs⟩
    · intro l hl
      rw [show joinNL2 [f] = f from rfl,
        splitLines_no_newline (h f (by simp))] at hl
      simp at hl
      simp [hl]
    · intro l hl
      have hj : joinNL2 (f :: g :: gs) = f ++ '\n' :: '\n' :: joinNL2 (g :: gs) := rfl
      rw [hj, splitLines_append_newline] at hl
      rcases List.mem_append.1 hl with hm | hm
      · rw [splitLines_no_newline (h f (by simp))] at hm
        simp at hm
        simp [hm]
      · rw [show splitLines ('\n' :: joinNL2 (g :: gs)) =
            [] :: splitLines (joinNL2 (g :: gs)) by rw [splitLines]; simp] at hm
        rcases List.mem_cons.1 hm with hm' | hm'
        · simp [hm']
        · rcases ih (fun r hr => h r (by simp [List.mem_cons.1 hr])) l hm' with h' | h'
          · simp [h']
          · simp [h']

/-! ### Stripping, casing and heading-prefix facts -/

theorem pyStrip_subset {s : PyStr} : ∀ c ∈ pyStrip s, c ∈ s := by
  intro c hc
  unfold pyStrip at hc
  rw [List.mem_reverse] at hc
  have h1 := (List.dropWhile_sublist (l := (s.dropWhile pyIsSpace).reverse)
    (p := pyIsSpace)).subset hc
  rw [List.mem_reverse] at h1
  exact (List.dropWhile_sublist (l := s) (p := pyIsSpace)).subset h1

theorem pyStrip_eq_nil_iff {s : PyStr} :
    pyStrip s = [] ↔ ∀ c ∈ s, pyIsSpace c = true := by
  constructor
  · intro h c hc
    by_contra hns
    unfold pyStrip at h
    rw [List.reverse_eq_nil_iff, List.dropWhile_eq_nil_iff] at h
    have h2 : ∀ a ∈ s.dropWhile pyIsSpace, pyIsSpace a = true := by
      intro a ha
      exact h a (by rw [List.mem_reverse]; exact ha)
    have h3 : ∀ a ∈ s, pyIsSpace a = true := by
      intro a ha
      rcases List.mem_append.1
          ((List.takeWhile_append_dropWhile (p := pyIsSpace) (l := s)) ▸ ha) with
        h' | h'
      · exact List.mem_takeWhile_imp h'
      · exact h2 a h'
    exact hns (h3 c hc)
  · intro h
    unfold pyStrip
    rw [List.reverse_eq_nil_iff, List.dropWhile_eq_nil_iff]
    intro a ha
    rw [List.mem_reverse] at ha
    exact h a ((List.dropWhile_sublist (l := s) (p := pyIsSpace)).subset ha)

theorem exists_line_of_mem {s : PyStr} {c : Char} (hc : c ∈ s) (hne : c ≠ '\n') :
    ∃ l ∈ splitLines s, c ∈ l := by
  induction s with
  | nil => simp at hc
  | cons d ds ih =>
    rw [splitLines]
    by_cases hd : d = '\n'
    · rw [if_pos hd]
      rcases List.mem_cons.1 hc with h | h
      · exact absurd (h.trans hd) hne
      · obtain ⟨l, hl, hcl⟩ := ih h
        exact ⟨l, by simp [hl], hcl⟩
    · rw [if_neg hd]
      rcases hsp : splitLines ds with _ | ⟨l', ls⟩
      · exact absurd hsp (splitLines_ne_nil ds)
      · rcases List.mem_cons.1 hc with h | h
        · exact ⟨d :: l', by simp, by simp [h]⟩
        · obtain ⟨l, hl, hcl⟩ := ih h
          rw [hsp] at hl
          rcases List.mem_cons.1 hl with h' | h'
          · exact ⟨d :: l', by simp, by simp [h' ▸ hcl]⟩
          · exact ⟨l, by simp [h'], hcl⟩

theorem processed_ne_nil {t : PyStr} (h : pyStrip t ≠ []) :
    ((splitLines t).map pyStrip).filter (fun l => !l.isEmpty) ≠ [] := by
  have : ∃ c ∈ t, pyIsSpace c = false := by
    by_contra hall
    push_neg at hall
    exact h (pyStrip_eq_nil_iff.2 fun c hc => by
      rcases hb : pyIsSpace c with _ | _
      · exact absurd hb (hall c hc)
      · rfl)
  obtain ⟨c, hc, hcs⟩ := this
  have hne : c ≠ '\n' := by
    intro he
    rw [he] at hcs
    simp [pyIsSpace] at hcs
  obtain ⟨l, hl, hcl⟩ := exists_line_of_mem hc hne
  have hstrip : pyStrip l ≠ [] := by
    intro hnil
    have hsp := pyStrip_eq_nil_iff.1 hnil c hcl
    simp [hsp] at hcs
  have hmem : pyStrip l ∈ ((splitLines t).map pyStrip).filter (fun l => !l.isEmpty) := by
    apply List.mem_filter.2
    refine ⟨List.mem_map_of_mem pyStrip hl, ?_⟩
    simp [List.isEmpty_iff, hstrip]
  exact List.ne_nil_of_mem hmem

theorem charOfNat_toNat {n : Nat} (h : n < 0xd800) : (Char.ofNat n).toNat = n := by
  have hv : n.isValidChar := Or.inl h
  rw [Char.ofNat, dif_pos hv]
  rfl

theorem toUpper_ne_newline {c : Char} (h : c ≠ '\n') : c.toUpper ≠ '\n' := by
  unfold Char.toUpper
  show (if c.toNat ≥ 97 ∧ c.toNat ≤ 122 then Char.ofNat (c.toNat - 32) else c) ≠ '\n'
  split
  · next hcond =>
    intro hc
    have h1 : (Char.ofNat (c.toNat - 32)).toNat = c.toNat - 32 :=
      charOfNat_toNat (by omega)
    rw [hc] at h1
    rw [show ('\n').toNat = 10 from rfl] at h1
    omega
  · exact h

theorem toLower_ne_newline {c : Char} (h : c ≠ '\n') : c.toLower ≠ '\n' := by
  unfold Char.toLower
  show (if c.toNat ≥ 65 ∧ c.toNat ≤ 90 then Char.ofNat (c.toNat + 32) else c) ≠ '\n'
  split
  · next hcond =>
    intro hc
    have h1 : (Char.ofNat (c.toNat + 32)).toNat = c.toNat + 32 :=
      charOfNat_toNat (by omega)
    rw [hc] at h1
    rw [show ('\n').toNat = 10 from rfl] at h1
    omega
  · exact h

theorem newline_not_mem_pyTitleAux (b : Bool) {s : PyStr} (h : '\n' ∉ s) :
    '\n' ∉ pyTitleAux b s := by
  induction s generalizing b with
  | nil => simp [pyTitleAux]
  | cons c cs ih =>
    simp only [List.mem_cons, not_or] at h
    rw [pyTitleAux]
    intro hmem
    rcases List.mem_cons.1 hmem with h' | h'
    · have hc : c ≠ '\n' := fun he => h.1 (he ▸ rfl)
      rcases ha : c.isAlpha with _ | _ <;> rw [ha] at h'
      · simp at h'
        exact hc h'.symm
      · simp at h'
        rcases hb : b with _ | _ <;> rw [hb] at h'
        · simp at h'
          exact toUpper_ne_newline hc h'.symm
        · simp at h'
          exact toLower_ne_newline hc h'.symm
    · exact ih c.isAlpha h.2 h'

theorem newline_not_mem_pyTitle {s : PyStr} (h : '\n' ∉ s) : '\n' ∉ pyTitle s :=
  newline_not_mem_pyTitleAux false h

theorem newline_not_mem_pyReplace {s : PyStr} (h : '\n' ∉ s) :
    '\n' ∉ pyReplaceChar '-' ' ' s := by
  unfold pyReplaceChar
  intro hmem
  rw [List.mem_map] at hmem
  obtain ⟨c, hc, heq⟩ := hmem
  by_cases hd : c = '-'
  · rw [if_pos hd] at heq
    exact absurd heq.symm (by decide)
  · rw [if_neg hd] at heq
    exact h (heq ▸ hc)

theorem not_newline_of_isDigit {c : Char} (h : c.isDigit = true) : c ≠ '\n' := by
  intro he
  subst he
  revert h
  decide

theorem newline_not_mem_natRepr (n : Nat) : '\n' ∉ natRepr n := by
  intro hmem
  exact not_newline_of_isDigit (natRepr_isDigit n '\n' hmem) rfl

/-! ### Which output lines count as page headings -/

/-- A markdown line beginning a page section: it starts with the
eight characters of `"## Page "`. -/
def isPageHeading (l : PyStr) : Bool := decide (str "## Page " <+: l)

theorem isPageHeading_nil : isPageHeading [] = false := by decide

theorem isPageHeading_not_hash {c : Char} (rest : PyStr) (h : c ≠ '#') :
    isPageHeading (c :: rest) = false := by
  apply decide_eq_false
  intro hp
  rw [show str "## Page " = '#' :: ('#' :: ' ' :: str "Page ") from rfl] at hp
  exact h (List.cons_prefix_cons.1 hp).1.symm

theorem isPageHeading_hash_space (rest : PyStr) :
    isPageHeading ('#' :: ' ' :: rest) = false := by
  apply decide_eq_false
  intro hp
  rw [show str "## Page " = '#' :: ('#' :: ' ' :: str "Page ") from rfl] at hp
  have h2 := (List.cons_prefix_cons.1 (List.cons_prefix_cons.1 hp).2).1
  exact absurd h2 (by decide)

theorem isPageHeading_hash3 (rest : PyStr) :
    isPageHeading ('#' :: '#' :: '#' :: rest) = false := by
  apply decide_eq_false
  intro hp
  rw [show str "## Page " = '#' :: ('#' :: (' ' :: str "Page ")) from rfl] at hp
  have h3 := (List.cons_prefix_cons.1 (List.cons_prefix_cons.1
    (List.cons_prefix_cons.1 hp).2).2).1
  exact absurd h3 (by decide)

theorem isPageHeading_heading (rest : PyStr) :
    isPageHeading (str "## Page " ++ rest) = true :=
  decide_eq_true (List.prefix_append (str "## Page ") rest)

theorem filter_flatten_ph (L : List (List PyStr)) :
    L.flatten.filter isPageHeading = (L.map (List.filter isPageHeading)).flatten := by
  induction L with
  | nil => rfl
  | cons a t ih => simp [List.filter_append, ih]

theorem filterPH_append_newline (a b : PyStr) :
    (splitLines (a ++ '\n' :: b)).filter isPageHeading =
      (splitLines a).filter isPageHeading ++ (splitLines b).filter isPageHeading := by
  rw [splitLines_append_newline, List.filter_append]

theorem filterPH_no_newline {a : PyStr} (hnl : '\n' ∉ a)
    (hf : isPageHeading a = false) :
    (splitLines a).filter isPageHeading = [] := by
  rw [splitLines_no_newline hnl]
  simp [hf]

/-! ### Newline-freeness of the generated pieces -/

theorem newline_not_mem_fname {p i : Nat} {e : PyStr} (he : '\n' ∉ e) :
    '\n' ∉ fname p i e := by
  unfold fname
  intro hm
  rcases List.mem_append.1 hm with h | h
  · rcases List.mem_append.1 h with h | h
    · rcases List.mem_append.1 h with h | h
      · rcases List.mem_append.1 h with h | h
        · rcases List.mem_append.1 h with h | h
          · exact absurd h (by decide)
          · exact newline_not_mem_natRepr p h
        · exact absurd h (by decide)
      · exact newline_not_mem_natRepr i h
    · exact absurd h (by decide)
  · exact he h

theorem newline_not_mem_mdRef {n f : PyStr} (hn : '\n' ∉ n) (hf : '\n' ∉ f) :
    '\n' ∉ mdRef n f := by
  unfold mdRef
  intro hm
  rcases List.mem_append.1 hm with h | h
  · rcases List.mem_append.1 h with h | h
    · rcases List.mem_append.1 h with h | h
      · exact absurd h (by decide)
      · exact hn h
    · rcases List.mem_cons.1 h with h | h
      · exact absurd h (by decide)
      · exact hf h
  · exact absurd h (by decide)

/-! ### Counting the page headings of a converted document -/

theorem extract_images_of_getimages {page : Page} {il : List ImageInfo}
    (hgi : page.getimages = .ok il) (n : PyStr) (pn : Nat) (d : PyStr) :
    ∃ refs eff, extract_images page n pn d = .ok (refs, eff) ∧
      ∀ r ∈ refs, ∃ j e, r = mdRef n (fname (pn + 1) j e) ∧
        ∃ im ∈ il, ∃ b, im.extract = .ok (b, e) := by
  simp only [extract_images, hgi]
  by_cases hemp : il.isEmpty
  · rw [if_pos hemp]
    exact ⟨[], Effects.none, rfl, by simp⟩
  · rw [if_neg hemp]
    refine ⟨_, _, rfl, ?_⟩
    intro r hr
    exact extractLoop_refs_mem n pn (d ++ '/' :: n) il 1 r hr

theorem filterPH_textFrags {t : PyStr} (pn : Nat) (hts : pyStrip t ≠ [])
    (hthead : ∀ l ∈ splitLines t, isPageHeading (pyStrip l) = false) :
    ([str "\n## Page " ++ natRepr (pn + 1) ++ str "\n",
        joinNL (((splitLines t).map pyStrip).filter fun l => !l.isEmpty),
        str "\n"].map fun f => (splitLines f).filter isPageHeading).flatten =
      [str "## Page " ++ natRepr (pn + 1)] := by
  have hB : '\n' ∉ str "## Page " ++ natRepr (pn + 1) := by
    intro hm
    rcases List.mem_append.1 hm with h | h
    · exact absurd h (by decide)
    · exact newline_not_mem_natRepr (pn + 1) h
  have h1 : str "\n## Page " ++ natRepr (pn + 1) ++ str "\n" =
      '\n' :: ((str "## Page " ++ natRepr (pn + 1)) ++ '\n' :: []) := by
    simp [str, List.append_assoc]
  have h1' : (splitLines (str "\n## Page " ++ natRepr (pn + 1) ++ str "\n")).filter
      isPageHeading = [str "## Page " ++ natRepr (pn + 1)] := by
    rw [h1, show splitLines ('\n' :: ((str "## Page " ++ natRepr (pn + 1)) ++ '\n' :: []))
        = [] :: splitLines ((str "## Page " ++ natRepr (pn + 1)) ++ '\n' :: [])
      by rw [splitLines]; simp]
    rw [splitLines_append_newline, splitLines_no_newline hB]
    simp [List.filter, isPageHeading_nil, isPageHeading_heading]
  have h2 : (splitLines (joinNL (((splitLines t).map pyStrip).filter
      fun l => !l.isEmpty))).filter isPageHeading = [] := by
    rw [splitLines_joinNL_id (processed_ne_nil hts) ?hnl]
    case hnl =>
      intro l hl
      rcases List.mem_filter.1 hl with ⟨hml, _⟩
      obtain ⟨l0, hl0, rfl⟩ := List.mem_map.1 hml
      intro hc
      exact newline_not_mem_splitLines hl0 (pyStrip_subset '\n' hc)
    apply List.filter_eq_nil_iff.2
    intro a ha
    rcases List.mem_filter.1 ha with ⟨hml, _⟩
    obtain ⟨l0, hl0, rfl⟩ := List.mem_map.1 hml
    simp [hthead l0 hl0]
  have h3 : (splitLines (str "\n")).filter isPageHeading = [] := by decide
  simp only [List.map_cons, List.map_nil, List.flatten, h1', h2, h3]
  simp

theorem filterPH_imgFrags {refs : List PyStr} (pn : Nat)
    (hrefs : ∀ r ∈ refs, '\n' ∉ r)
    (hshape : ∀ r ∈ refs, ∃ rest, r = '!' :: rest) :
    ([str "\n### Images from Page " ++ natRepr (pn + 1) ++ str "\n",
        joinNL2 refs, str "\n"].map fun f => (splitLines f).filter isPageHeading).flatten
      = [] := by
  have hline : '\n' ∉ str "### Images from Page " ++ natRepr (pn + 1) := by
    intro hm
    rcases List.mem_append.1 hm with h | h
    · exact absurd h (by decide)
    · exact newline_not_mem_natRepr (pn + 1) h
  have h1 : str "\n### Images from Page " ++ natRepr (pn + 1) ++ str "\n" =
      '\n' :: ((str "### Images from Page " ++ natRepr (pn + 1)) ++ '\n' :: []) := by
    simp [str, List.append_assoc]
  have hhash : isPageHeading (str "### Images from Page " ++ natRepr (pn + 1)) = false := by
    rw [show str "### Images from Page " ++ natRepr (pn + 1) =
      '#' :: '#' :: '#' :: (str " Images from Page " ++ natRepr (pn + 1)) from rfl]
    exact isPageHeading_hash3 _
  have h1' : (splitLines (str "\n### Images from Page " ++ natRepr (pn + 1) ++ str "\n")).filter
      isPageHeading = [] := by
    rw [h1, show splitLines ('\n' :: ((str "### Images from Page " ++ natRepr (pn + 1)) ++ '\n' :: []))
        = [] :: splitLines ((str "### Images from Page " ++ natRepr (pn + 1)) ++ '\n' :: [])
      by rw [splitLines]; simp]
    rw [splitLines_append_newline, splitLines_no_newline hline]
    simp [List.filter, isPageHeading_nil, hhash]
  have h2 : (splitLines (joinNL2 refs)).filter isPageHeading = [] := by
    apply List.filter_eq_nil_iff.2
    intro l hl
    rcases mem_splitLines_joinNL2 hrefs l hl with h | h
    · simp [h, isPageHeading_nil]
    · obtain ⟨rest, hr⟩ := hshape l h
      rw [hr]
      simp [isPageHeading_not_hash (c := '!') rest (by decide)]
  have h3 : (splitLines (str "\n")).filter isPageHeading = [] := by decide
  simp only [List.map_cons, List.map_nil, List.flatten, h1', h2, h3]
  simp

theorem convertPages_filter (n d : PyStr) (hn : '\n' ∉ n) :
    ∀ (pages : List Page) (pn : Nat),
    (∀ pg ∈ pages, ∃ t, pg.gettext = .ok t ∧ pyStrip t ≠ [] ∧
      ∀ l ∈ splitLines t, isPageHeading (pyStrip l) = false) →
    (∀ pg ∈ pages, ∃ il, pg.getimages = .ok il ∧
      ∀ im ∈ il, ∀ b e, im.extract = .ok (b, e) → '\n' ∉ e) →
    ∃ eff frags, convertPages n d pages pn = (eff, .ok frags) ∧
      (frags.map fun f => (splitLines f).filter isPageHeading).flatten =
        (List.range pages.length).map fun k => str "## Page " ++ natRepr (pn + k + 1) := by
  intro pages
  induction pages with
  | nil =>
    intro pn _ _
    exact ⟨Effects.none, [], rfl, by simp⟩
  | cons pg rest ih =>
    intro pn htext himg
    obtain ⟨t, ht, hts, hthead⟩ := htext pg (by simp)
    obtain ⟨il, hil, hile⟩ := himg pg (by simp)
    obtain ⟨refs, eff1, hex, hrefspec⟩ := extract_images_of_getimages hil n pn d
    obtain ⟨effR, fragsR, hconv, hfilter⟩ := ih (pn + 1)
      (fun p hp => htext p (by simp [hp])) (fun p hp => himg p (by simp [hp]))
    have hrefs_nl : ∀ r ∈ refs, '\n' ∉ r := by
      intro r hr
      obtain ⟨j, e, hre, im, him, b, hb⟩ := hrefspec r hr
      rw [hre]
      exact newline_not_mem_mdRef hn (newline_not_mem_fname (hile im him b e hb))
    have hrefs_shape : ∀ r ∈ refs, ∃ rest', r = '!' :: rest' := by
      intro r hr
      obtain ⟨j, e, hre, _⟩ := hrefspec r hr
      exact ⟨_, by rw [hre]; rfl⟩
    have hempty : (pyStrip t).isEmpty = false := by
      rcases hb : (pyStrip t).isEmpty with _ | _
      · rfl
      · exact absurd (List.isEmpty_iff.1 hb) hts
    simp only [convertPages, ht, hex, hconv, hempty, Bool.false_eq_true, if_false]
    refine ⟨_, _, rfl, ?_⟩
    by_cases hre : refs.isEmpty
    · rw [if_pos hre]
      simp only [List.nil_append, List.map_append, List.flatten_append]
      rw [filterPH_textFrags pn hts hthead, hfilter]
      simp only [List.length_cons, List.range_succ_eq_map, List.map_cons, List.map_map,
        List.map_nil, List.flatten_nil, List.singleton_append, List.nil_append,
        List.append_nil]
      congr 1
      apply List.map_congr_left
      intro k hk
      simp only [Function.comp_apply]
      congr 2
      omega
    · rw [if_neg hre]
      simp only [List.map_append, List.flatten_append]
      rw [filterPH_textFrags pn hts hthead, filterPH_imgFrags pn hrefs_nl hrefs_shape,
        hfilter]
      simp only [List.length_cons, List.range_succ_eq_map, List.map_cons, List.map_map,
        List.singleton_append, List.nil_append, List.append_nil]
      congr 1
      apply List.map_congr_left
      intro k hk
      simp only [Function.comp_apply]
      congr 2
      omega

theorem filterPH_header (stem name : PyStr) (hstem : '\n' ∉ stem)
    (hname : '\n' ∉ name) :
    ([str "# " ++ pyTitle (pyReplaceChar '-' ' ' stem) ++ str "\n",
        str "*Converted from: " ++ name ++ str "*\n",
        str "---\n"].map fun f => (splitLines f).filter isPageHeading).flatten = [] := by
  have htitle : '\n' ∉ pyTitle (pyReplaceChar '-' ' ' stem) :=
    newline_not_mem_pyTitle (newline_not_mem_pyReplace hstem)
  have h1 : (splitLines (str "# " ++ pyTitle (pyReplaceChar '-' ' ' stem) ++ str "\n")).filter
      isPageHeading = [] := by
    rw [show str "# " ++ pyTitle (pyReplaceChar '-' ' ' stem) ++ str "\n" =
      (str "# " ++ pyTitle (pyReplaceChar '-' ' ' stem)) ++ '\n' :: [] from rfl]
    rw [splitLines_append_newline]
    have hA : '\n' ∉ str "# " ++ pyTitle (pyReplaceChar '-' ' ' stem) := by
      intro hm
      rcases List.mem_append.1 hm with h | h
      · exact absurd h (by decide)
      · exact htitle h
    rw [splitLines_no_newline hA]
    have : isPageHeading (str "# " ++ pyTitle (pyReplaceChar '-' ' ' stem)) = false := by
      rw [show str "# " ++ pyTitle (pyReplaceChar '-' ' ' stem) =
        '#' :: ' ' :: pyTitle (pyReplaceChar '-' ' ' stem) from rfl]
      exact isPageHeading_hash_space _
    simp [List.filter, this, isPageHeading_nil, splitLines]
  have h2 : (splitLines (str "*Converted from: " ++ name ++ str "*\n")).filter
      isPageHeading = [] := by
    have hform : str "*Converted from: " ++ name ++ str "*\n" =
        (str "*Converted from: " ++ (name ++ '*' :: [])) ++ '\n' :: [] := by
      simp [str, List.append_assoc]
    rw [hform, splitLines_append_newline]
    have hA : '\n' ∉ str "*Converted from: " ++ (name ++ '*' :: []) := by
      intro hm
      rcases List.mem_append.1 hm with h | h
      · exact absurd h (by decide)
      · rcases List.mem_append.1 h with h | h
        · exact hname h
        · exact absurd h (by decide)
    rw [splitLines_no_newline hA]
    have hph : isPageHeading (str "*Converted from: " ++ (name ++ '*' :: [])) = false := by
      rw [show str "*Converted from: " ++ (name ++ '*' :: []) =
        '*' :: (str "Converted from: " ++ (name ++ '*' :: [])) from rfl]
      exact isPageHeading_not_hash (c := '*') _ (by decide)
    simp [List.filter, hph, isPageHeading_nil, splitLines]
  have h3 : (splitLines (str "---\n")).filter isPageHeading = [] := by decide
  simp only [List.map_cons, List.map_nil, List.flatten, h1, h2, h3]
  simp

/-! ### Uniqueness of written image paths (whole document) -/

theorem extract_images_writes_mem {page : Page} {n : PyStr} {pn : Nat} {d : PyStr}
    {refs : List PyStr} {eff : Effects}
    (hex : extract_images page n pn d = .ok (refs, eff)) :
    ∀ w ∈ eff.writes, ∃ j e b, 1 ≤ j ∧
      w = ((d ++ '/' :: n) ++ '/' :: fname (pn + 1) j e, b) := by
  rcases hgi : page.getimages with er | il
  · simp [extract_images, hgi] at hex
  · simp only [extract_images, hgi] at hex
    by_cases hemp : il.isEmpty
    · rw [if_pos hemp] at hex
      obtain ⟨h1, h2⟩ := Prod.mk.injEq .. ▸ Except.ok.injEq .. ▸ hex
      intro w hw
      rw [← h2] at hw
      simp [Effects.none] at hw
    · rw [if_neg hemp] at hex
      injection hex with hex
      injection hex with h1 h2
      intro w hw
      rw [← h2] at hw
      obtain ⟨j, e, b, hj1, hj2, hw⟩ :=
        extractLoop_writes_mem n pn (d ++ '/' :: n) il 1 w hw
      exact ⟨j, e, b, hj1, hw⟩

theorem extract_images_writes_nodup {page : Page} {n : PyStr} {pn : Nat} {d : PyStr}
    {refs : List PyStr} {eff : Effects}
    (hex : extract_images page n pn d = .ok (refs, eff)) :
    (eff.writes.map Prod.fst).Nodup := by
  rcases hgi : page.getimages with er | il
  · simp [extract_images, hgi] at hex
  · simp only [extract_images, hgi] at hex
    by_cases hemp : il.isEmpty
    · rw [if_pos hemp] at hex
      injection hex with hex
      injection hex with h1 h2
      rw [← h2]
      simp [Effects.none]
    · rw [if_neg hemp] at hex
      injection hex with hex
      injection hex with h1 h2
      rw [← h2]
      exact extractLoop_writes_nodup n pn (d ++ '/' :: n) il 1

theorem convertPages_writes_mem (n d : PyStr) (pages : List Page) (pn : Nat) :
    ∀ w ∈ (convertPages n d pages pn).1.writes, ∃ p, pn ≤ p ∧ p < pn + pages.length ∧
      ∃ j e b, 1 ≤ j ∧ w = ((d ++ '/' :: n) ++ '/' :: fname (p + 1) j e, b) := by
  induction pages generalizing pn with
  | nil => simp [convertPages, Effects.none]
  | cons pg rest ih =>
    intro w hw
    rcases ht : pg.gettext with er | t
    · simp [convertPages, ht, Effects.none] at hw
    · rcases hex : extract_images pg n pn d with er | re
      · simp [convertPages, ht, hex, Effects.none] at hw
      · simp only [convertPages, ht, hex] at hw
        rcases List.mem_append.1 (by simpa [Effects.append] using hw) with h | h
        · obtain ⟨j, e, b, hj, hweq⟩ :=
            extract_images_writes_mem (by rw [hex] : extract_images pg n pn d = .ok (re.1, re.2)) w h
          exact ⟨pn, Nat.le_refl pn, by simp, j, e, b, hj, hweq⟩
        · obtain ⟨p, hp1, hp2, j, e, b, hj, hweq⟩ := ih (pn + 1) w h
          exact ⟨p, by omega, by simp only [List.length_cons]; omega, j, e, b, hj, hweq⟩

theorem convertPages_writes_nodup (n d : PyStr) (pages : List Page) (pn : Nat) :
    ((convertPages n d pages pn).1.writes.map Prod.fst).Nodup := by
  induction pages generalizing pn with
  | nil => simp [convertPages, Effects.none]
  | cons pg rest ih =>
    rcases ht : pg.gettext with er | t
    · simp [convertPages, ht, Effects.none]
    · rcases hex : extract_images pg n pn d with er | re
      · simp [convertPages, ht, hex, Effects.none]
      · simp only [convertPages, ht, hex]
        have hw1 : (re.2.writes.map Prod.fst).Nodup :=
          extract_images_writes_nodup (by rw [hex] : extract_images pg n pn d = .ok (re.1, re.2))
      -- replaced below
        have hw2 := ih (pn + 1)
        have hdisj : (re.2.writes.map Prod.fst).Disjoint
            ((convertPages n d rest (pn + 1)).1.writes.map Prod.fst) := by
          intro a ha1 ha2
          obtain ⟨w1, hw1m, hweq1⟩ := List.mem_map.1 ha1
          obtain ⟨w2, hw2m, hweq2⟩ := List.mem_map.1 ha2
          obtain ⟨j, e, b, hj, hform1⟩ := extract_images_writes_mem
            (by rw [hex] : extract_images pg n pn d = .ok (re.1, re.2)) w1 hw1m
          obtain ⟨p, hp1, hp2, j', e', b', hj', hform2⟩ :=
            convertPages_writes_mem n d rest (pn + 1) w2 hw2m
          rw [hform1] at hweq1
          rw [hform2] at hweq2
          have heq : (d ++ '/' :: n) ++ '/' :: fname (pn + 1) j e =
              (d ++ '/' :: n) ++ '/' :: fname (p + 1) j' e' :=
            hweq1.trans hweq2.symm
          have := List.cons_injective (List.append_cancel_left heq)
          have hpp := (fname_inj this).1
          omega
        show ((re.2.append (convertPages n d rest (pn + 1)).1).writes.map Prod.fst).Nodup
        simp only [Effects.append, List.map_append]
        exact List.Nodup.append hw1 hw2 hdisj

/-! ### Batch loop lemmas -/

theorem mainLoop_append (od id : PyStr) (xs ys : List PDFFile) (st : BatchState) :
    mainLoop od id (xs ++ ys) st = mainLoop od id ys (mainLoop od id xs st) :=
  List.foldl_append ..

theorem runFile_logs_extend (od id : PyStr) (st : BatchState) (pdf : PDFFile) :
    ∃ tail, (runFile od id st pdf).logs = st.logs ++ tail := by
  unfold runFile
  rcases hc : convert_pdf_to_markdown pdf od id with ⟨eff, res⟩
  rcases res with e | pc <;> simp

theorem mainLoop_logs_mono (od id : PyStr) (files : List PDFFile)
    (st : BatchState) : ∀ l ∈ st.logs, l ∈ (mainLoop od id files st).logs := by
  induction files generalizing st with
  | nil => intro l hl; exact hl
  | cons f fs ih =>
    intro l hl
    have hstep : mainLoop od id (f :: fs) st = mainLoop od id fs (runFile od id st f) := rfl
    rw [hstep]
    obtain ⟨tail, htail⟩ := runFile_logs_extend od id st f
    exact ih (runFile od id st f) l (by rw [htail]; exact List.mem_append_left tail hl)

theorem mainLoop_mdfs (od id : PyStr) (files : List PDFFile) (st : BatchState) :
    (mainLoop od id files st).mdfs = applyWrites st.mdfs (mdWrites od id files) := by
  induction files generalizing st with
  | nil => rfl
  | cons f fs ih =>
    have hstep : mainLoop od id (f :: fs) st = mainLoop od id fs (runFile od id st f) := rfl
    rw [hstep, ih]
    rcases hc : convert_pdf_to_markdown f od id with ⟨eff, res⟩
    rcases res with e | pc
    · have h1 : (runFile od id st f).mdfs = st.mdfs := by
        unfold runFile
        rw [hc]
      have h2 : mdWrites od id (f :: fs) = mdWrites od id fs := by
        unfold mdWrites
        simp [List.filterMap_cons, hc]
      rw [h1, h2]
    · have h1 : (runFile od id st f).mdfs = fsWrite st.mdfs pc.1 pc.2 := by
        unfold runFile
        rw [hc]
      have h2 : mdWrites od id (f :: fs) = pc :: mdWrites od id fs := by
        unfold mdWrites
        simp [List.filterMap_cons, hc]
      rw [h1, h2]
      rfl

/-! ### Precise behaviour of extract_images per claim -/

theorem extract_images_empty {page : Page} (hgi : page.getimages = .ok []) :
    ∀ (n : PyStr) (pn : Nat) (d : PyStr),
    extract_images page n pn d = .ok ([], Effects.none) := by
  intro n pn d
  simp [extract_images, hgi]

theorem extract_images_nonempty {page : Page} {il : List ImageInfo}
    (hgi : page.getimages = .ok il) (hne : il ≠ []) (n : PyStr) (pn : Nat) (d : PyStr) :
    extract_images page n pn d =
      .ok ((extractLoop n pn (d ++ '/' :: n) il 1).1,
        ⟨[d ++ '/' :: n], (extractLoop n pn (d ++ '/' :: n) il 1).2.1,
          (extractLoop n pn (d ++ '/' :: n) il 1).2.2⟩) := by
  simp only [extract_images, hgi]
  rw [if_neg (by simpa using hne)]

theorem extract_images_all_ok {page : Page} {il : List ImageInfo}
    (hgi : page.getimages = .ok il)
    (hall : ∀ im ∈ il, ∃ b e, im.extract = .ok (b, e))
    (n : PyStr) (pn : Nat) (d : PyStr) :
    ∃ refs eff, extract_images page n pn d = .ok (refs, eff) ∧
      refs.length = il.length ∧ eff.warnings = [] ∧
      (eff.writes.map Prod.fst).Nodup ∧
      ∀ k, k < il.length → ∃ im b e, il.get? k = some im ∧
        im.extract = .ok (b, e) ∧
        refs.get? k = some (mdRef n (fname (pn + 1) (k + 1) e)) ∧
        ((d ++ '/' :: n) ++ '/' :: fname (pn + 1) (k + 1) e, b) ∈ eff.writes := by
  rcases il with _ | ⟨im0, rest⟩
  · exact ⟨[], Effects.none, extract_images_empty hgi n pn d, by simp, rfl, by
      simp [Effects.none], by simp⟩
  · rw [extract_images_nonempty hgi (by simp) n pn d]
    obtain ⟨hlen, hwarn, hspec⟩ :=
      extractLoop_ok_spec n pn (d ++ '/' :: n) (im0 :: rest) 1 hall
    refine ⟨_, _, rfl, hlen, hwarn, extractLoop_writes_nodup n pn (d ++ '/' :: n) _ 1, ?_⟩
    intro k hk
    obtain ⟨im, b, e, h1, h2, h3, h4⟩ := hspec k hk
    refine ⟨im, b, e, h1, h2, ?_, ?_⟩
    · rw [h3]
      rw [show 1 + k = k + 1 from Nat.add_comm 1 k]
    · have := List.get?_mem h4
      rw [show 1 + k = k + 1 from Nat.add_comm 1 k] at this
      exact this

theorem extract_images_split {page : Page} {l₁ l₂ : List ImageInfo}
    {bad : ImageInfo} {er : PyStr}
    (hgi : page.getimages = .ok (l₁ ++ bad :: l₂)) (hbad : bad.extract = .error er)
    (n : PyStr) (pn : Nat) (d : PyStr) :
    ∃ refs eff, extract_images page n pn d = .ok (refs, eff) ∧
      refs = (extractLoop n pn (d ++ '/' :: n) l₁ 1).1 ++
        (extractLoop n pn (d ++ '/' :: n) l₂ (l₁.length + 2)).1 ∧
      eff.writes = (extractLoop n pn (d ++ '/' :: n) l₁ 1).2.1 ++
        (extractLoop n pn (d ++ '/' :: n) l₂ (l₁.length + 2)).2.1 ∧
      eff.warnings = (extractLoop n pn (d ++ '/' :: n) l₁ 1).2.2 ++
        warnMsg (l₁.length + 1) pn er ::
          (extractLoop n pn (d ++ '/' :: n) l₂ (l₁.length + 2)).2.2 := by
  rw [extract_images_nonempty hgi (by simp) n pn d]
  have harith1 : 1 + l₁.length + 1 = l₁.length + 2 := by omega
  have harith2 : 1 + l₁.length = l₁.length + 1 := by omega
  refine ⟨_, _, rfl, ?_, ?_, ?_⟩ <;>
    rw [extractLoop_append n pn (d ++ '/' :: n) l₁ (bad :: l₂) 1] <;>
    simp [extractLoop, hbad, harith1, harith2]

/-! ### Concrete example inputs used by witnesses and counterexamples -/

/-- An embedded image that extracts successfully (two payload bytes,
`png` extension). -/
def exImgOk : ImageInfo := ⟨.ok ([7, 8], str "png")⟩

/-- An embedded image whose extraction raises. -/
def exImgBad : ImageInfo := ⟨.error (str "broken")⟩

/-- A page with text and one extractable image. -/
def exPageA : Page := ⟨.ok (str "  Hello \n\n  World  "), .ok [exImgOk]⟩

/-- A page whose text extraction raises. -/
def exPageFail : Page := ⟨.error (str "boom"), .ok []⟩

/-- A page with one listed image before and after a failing one. -/
def exPageMixed : Page := ⟨.ok (str "x"), .ok [exImgOk, exImgBad, exImgOk]⟩

/-- A document whose second page fails after the first page's image was
already written. -/
def exPdfBad : PDFFile := ⟨str "bad", str "bad.pdf", .ok [exPageA, exPageFail]⟩

/-- The smallest convertible document: no pages at all. -/
def exPdfTiny : PDFFile := ⟨str "t", str "t.pdf", .ok []⟩

/-- A document whose stem matches the spec's title example. -/
def exPdfNfse : PDFFile :=
  ⟨str "nfse-nacional-manual", str "nfse-nacional-manual.pdf", .ok []⟩

/-- A page whose single image extracts successfully but with an empty
byte payload. -/
def cexPageEmptyImg : Page := ⟨.ok (str "x"), .ok [⟨.ok ([], str "png")⟩]⟩

/-- A document whose page text itself contains a line reading
`## Page 2`. -/
def cexPdfHeading : PDFFile :=
  ⟨str "d", str "d.pdf", .ok [⟨.ok (str "## Page 2"), .ok []⟩]⟩

/-- Effects of converting `exPdfBad` (the first page's image file). -/
def exBadEff : Effects :=
  ⟨[str "imgs/bad"], [(str "imgs/bad/page1_img1.png", [7, 8])], []⟩

theorem ne_nil_of_isEmpty_false {α : Type} {l : List α} (h : l.isEmpty = false) :
    l ≠ [] := by
  intro he
  rw [he] at h
  simp at h

theorem Effects.append_none (a : Effects) : a.append Effects.none = a := by
  simp [Effects.append, Effects.none]

/-! ### The claims -/

/-- Claim C10: `extract_images` creates the per-document image
subdirectory if and only if the page lists at least one embedded image
(even when every extraction attempt fails, since no hypothesis on the
extraction outcomes is made); for a page listing no images it performs
no filesystem side effect at all (no directory, no write). -/
theorem claim_C10 (page : Page) (n : PyStr) (pn : Nat) (d : PyStr)
    (il : List ImageInfo) (hgi : page.getimages = .ok il) :
    ∃ refs eff, extract_images page n pn d = .ok (refs, eff) ∧
      eff.dirs = (if il = [] then [] else [d ++ '/' :: n]) ∧
      (il = [] → refs = [] ∧ eff.writes = [] ∧ eff.dirs = []) := by
  rcases il with _ | ⟨im, rest⟩
  · exact ⟨[], Effects.none, extract_images_empty hgi n pn d,
      by simp [Effects.none], by simp [Effects.none]⟩
  · rw [extract_images_nonempty hgi (by simp) n pn d]
    exact ⟨_, _, rfl, by simp, by simp⟩

/-- Witness for C10 at a concrete page with one listed image whose
extraction fails: the directory is still created and nothing else. -/
theorem claim_C10_witness :
    ∃ refs eff,
      extract_images ⟨.ok (str "x"), .ok [exImgBad]⟩ (str "w") 0 (str "imgs") =
        .ok (refs, eff) ∧
      eff.dirs = (if ([exImgBad] : List ImageInfo) = [] then []
        else [str "imgs" ++ '/' :: str "w"]) ∧
      (([exImgBad] : List ImageInfo) = [] →
        refs = [] ∧ eff.writes = [] ∧ eff.dirs = []) :=
  claim_C10 ⟨.ok (str "x"), .ok [exImgBad]⟩ (str "w") 0 (str "imgs") [exImgBad] rfl

/-- Claim C7: within a single document all image file paths written by
`extract_images` are pairwise distinct, whatever the document and
whatever succeeds or fails (the 1-indexed page number and per-page
image counter embedded in each filename prevent any collision). -/
theorem claim_C7 (pdf : PDFFile) (output_dir images_dir : PyStr) :
    (((convert_pdf_to_markdown pdf output_dir images_dir).1.writes).map
      Prod.fst).Nodup := by
  unfold convert_pdf_to_markdown
  rcases hdoc : pdf.doc with e | pages
  · simp [hdoc, Effects.none]
  · simp only [hdoc]
    have hnd := convertPages_writes_nodup pdf.stem images_dir pages 0
    rcases hcp : convertPages pdf.stem images_dir pages 0 with ⟨eff, res⟩
    rw [hcp] at hnd
    rcases res with e | frags <;> simpa using hnd

/-- Claim C5: a failing image inside a page is caught inside
`extract_images`: it produces no reference and no write (no
placeholder), a warning naming the 1-indexed image index and page
number is printed, and the images before and after it are processed
exactly as they would be otherwise (extraction continues and the
function still returns normally). -/
theorem claim_C5 (page : Page) (n : PyStr) (pn : Nat) (d : PyStr)
    (l₁ l₂ : List ImageInfo) (bad : ImageInfo) (er : PyStr)
    (hgi : page.getimages = .ok (l₁ ++ bad :: l₂))
    (hbad : bad.extract = .error er) :
    ∃ refs eff, extract_images page n pn d = .ok (refs, eff) ∧
      refs = (extractLoop n pn (d ++ '/' :: n) l₁ 1).1 ++
        (extractLoop n pn (d ++ '/' :: n) l₂ (l₁.length + 2)).1 ∧
      eff.writes = (extractLoop n pn (d ++ '/' :: n) l₁ 1).2.1 ++
        (extractLoop n pn (d ++ '/' :: n) l₂ (l₁.length + 2)).2.1 ∧
      eff.warnings = (extractLoop n pn (d ++ '/' :: n) l₁ 1).2.2 ++
        warnMsg (l₁.length + 1) pn er ::
          (extractLoop n pn (d ++ '/' :: n) l₂ (l₁.length + 2)).2.2 :=
  extract_images_split hgi hbad n pn d

/-- Witness for C5 at a concrete page whose second of three images
fails. -/
theorem claim_C5_witness :
    ∃ refs eff, extract_images exPageMixed (str "m") 0 (str "imgs") = .ok (refs, eff) ∧
      refs = (extractLoop (str "m") 0 (str "imgs" ++ '/' :: str "m") [exImgOk] 1).1 ++
        (extractLoop (str "m") 0 (str "imgs" ++ '/' :: str "m") [exImgOk]
          ([exImgOk].length + 2)).1 ∧
      eff.writes = (extractLoop (str "m") 0 (str "imgs" ++ '/' :: str "m") [exImgOk] 1).2.1 ++
        (extractLoop (str "m") 0 (str "imgs" ++ '/' :: str "m") [exImgOk]
          ([exImgOk].length + 2)).2.1 ∧
      eff.warnings = (extractLoop (str "m") 0 (str "imgs" ++ '/' :: str "m") [exImgOk] 1).2.2 ++
        warnMsg ([exImgOk].length + 1) 0 (str "broken") ::
          (extractLoop (str "m") 0 (str "imgs" ++ '/' :: str "m") [exImgOk]
            ([exImgOk].length + 2)).2.2 :=
  claim_C5 exPageMixed (str "m") 0 (str "imgs") [exImgOk] [exImgOk] exImgBad
    (str "broken") rfl rfl

/-- Claim C9: when converting one document raises (modelled: `fitz.open`,
`get_text` or `get_images` fails), the batch step writes no markdown
file for it — the markdown filesystem is exactly as before — while the
image files extracted before the failure are still applied to the image
filesystem. -/
theorem claim_C9 (output_dir images_dir : PyStr) (st : BatchState) (pdf : PDFFile)
    (eff : Effects) (er : PyStr)
    (hconv : convert_pdf_to_markdown pdf output_dir images_dir = (eff, .error er)) :
    (runFile output_dir images_dir st pdf).mdfs = st.mdfs ∧
    (runFile output_dir images_dir st pdf).imgfs = applyWrites st.imgfs eff.writes := by
  unfold runFile
  rw [hconv]
  exact ⟨rfl, rfl⟩

/-- Witness for C9: `exPdfBad` fails on its second page after writing
one image file of its first page; the markdown filesystem stays empty
and the image write is on disk. -/
theorem claim_C9_witness :
    (runFile (str "out") (str "imgs") ⟨[], [], []⟩ exPdfBad).mdfs = [] ∧
    (runFile (str "out") (str "imgs") ⟨[], [], []⟩ exPdfBad).imgfs =
      applyWrites [] exBadEff.writes :=
  claim_C9 (str "out") (str "imgs") ⟨[], [], []⟩ exPdfBad exBadEff (str "boom") rfl

/-- Claim C3: for a page whose extracted text is non-empty after
trimming, the formatter emits the `## Page <n>` heading followed by the
text with each line trimmed, blank lines dropped and the rest rejoined
with single newlines; for empty/whitespace-only text no heading and no
text block is emitted; either way the image references, if any, are
emitted under an `### Images from Page <n>` subheading. -/
theorem claim_C3 (n d : PyStr) (page : Page) (pn : Nat) (t : PyStr)
    (refs : List PyStr) (eff : Effects)
    (ht : page.gettext = .ok t)
    (hex : extract_images page n pn d = .ok (refs, eff)) :
    convertPages n d [page] pn = (eff, .ok (
      (if pyStrip t = [] then []
       else [str "\n## Page " ++ natRepr (pn + 1) ++ str "\n",
         joinNL (((splitLines t).map pyStrip).filter fun l => !l.isEmpty),
         str "\n"]) ++
      (if refs = [] then []
       else [str "\n### Images from Page " ++ natRepr (pn + 1) ++ str "\n",
         joinNL2 refs, str "\n"]))) := by
  have happ : eff.append Effects.none = eff := Effects.append_none eff
  rcases hb1 : (pyStrip t).isEmpty with _ | _ <;>
    rcases hb2 : refs.isEmpty with _ | _
  · rw [if_neg (ne_nil_of_isEmpty_false hb1), if_neg (ne_nil_of_isEmpty_false hb2)]
    simp [convertPages, ht, hex, hb1, hb2, happ]
  · rw [if_neg (ne_nil_of_isEmpty_false hb1), if_pos (List.isEmpty_iff.1 hb2)]
    simp [convertPages, ht, hex, hb1, hb2, happ]
  · rw [if_pos (List.isEmpty_iff.1 hb1), if_neg (ne_nil_of_isEmpty_false hb2)]
    simp [convertPages, ht, hex, hb1, hb2, happ]
  · rw [if_pos (List.isEmpty_iff.1 hb1), if_pos (List.isEmpty_iff.1 hb2)]
    simp [convertPages, ht, hex, hb1, hb2, happ]

/-- Witness for C3 at a concrete page with non-empty text and one
image. -/
theorem claim_C3_witness :
    convertPages (str "doc-a") (str "imgs") [exPageA] 0 =
      (⟨[str "imgs/doc-a"], [(str "imgs/doc-a/page1_img1.png", [7, 8])], []⟩, .ok (
        (if pyStrip (str "  Hello \n\n  World  ") = [] then []
         else [str "\n## Page " ++ natRepr (0 + 1) ++ str "\n",
           joinNL (((splitLines (str "  Hello \n\n  World  ")).map pyStrip).filter
             fun l => !l.isEmpty),
           str "\n"]) ++
        (if ([str "![Image](images/doc-a/page1_img1.png)"] : List PyStr) = [] then []
         else [str "\n### Images from Page " ++ natRepr (0 + 1) ++ str "\n",
           joinNL2 [str "![Image](images/doc-a/page1_img1.png)"], str "\n"]))) :=
  claim_C3 (str "doc-a") (str "imgs") exPageA 0 (str "  Hello \n\n  World  ")
    [str "![Image](images/doc-a/page1_img1.png)"]
    ⟨[str "imgs/doc-a"], [(str "imgs/doc-a/page1_img1.png", [7, 8])], []⟩ rfl rfl

/-- Claim C1 (amended): for a page all of whose K listed images extract
successfully with non-empty byte payloads, `extract_images` returns
exactly K markdown reference lines naming `page<n>_img1` …
`page<n>_imgK` with each image's detected extension, no warnings, and
after applying its writes every one of the K files is on disk with its
image's payload as content — in particular with non-zero size. -/
theorem claim_C1 (page : Page) (n : PyStr) (pn : Nat) (d : PyStr)
    (il : List ImageInfo) (fs : List (PyStr × Bytes))
    (hgi : page.getimages = .ok il)
    (hall : ∀ im ∈ il, ∃ b e, im.extract = .ok (b, e) ∧ b ≠ []) :
    ∃ refs eff, extract_images page n pn d = .ok (refs, eff) ∧
      refs.length = il.length ∧ eff.warnings = [] ∧
      ∀ k, k < il.length → ∃ im b e, il.get? k = some im ∧
        im.extract = .ok (b, e) ∧
        refs.get? k = some (mdRef n (fname (pn + 1) (k + 1) e)) ∧
        fsRead (applyWrites fs eff.writes)
          ((d ++ '/' :: n) ++ '/' :: fname (pn + 1) (k + 1) e) = some b ∧
        b ≠ [] := by
  obtain ⟨refs, eff, hex, hlen, hwarn, hnd, hspec⟩ :=
    extract_images_all_ok hgi (fun im him => by
      obtain ⟨b, e, hbe, _⟩ := hall im him
      exact ⟨b, e, hbe⟩) n pn d
  refine ⟨refs, eff, hex, hlen, hwarn, ?_⟩
  intro k hk
  obtain ⟨im, b, e, h1, h2, h3, h4⟩ := hspec k hk
  obtain ⟨b', e', hbe', hb'⟩ := hall im (List.get?_mem h1)
  have : b = b' ∧ e = e' := by
    rw [h2] at hbe'
    injection hbe' with h5
    exact ⟨congrArg Prod.fst h5, congrArg Prod.snd h5⟩
  refine ⟨im, b, e, h1, h2, h3, ?_, this.1 ▸ hb'⟩
  exact fsRead_applyWrites_nodup fs hnd h4

/-- Witness for C1 at `exPageA` (one image, payload `[7, 8]`,
extension `png`). -/
theorem claim_C1_witness :
    ∃ refs eff, extract_images exPageA (str "doc-a") 0 (str "imgs") = .ok (refs, eff) ∧
      refs.length = ([exImgOk] : List ImageInfo).length ∧ eff.warnings = [] ∧
      ∀ k, k < ([exImgOk] : List ImageInfo).length → ∃ im b e,
        ([exImgOk] : List ImageInfo).get? k = some im ∧
        im.extract = .ok (b, e) ∧
        refs.get? k = some (mdRef (str "doc-a") (fname (0 + 1) (k + 1) e)) ∧
        fsRead (applyWrites [] eff.writes)
          ((str "imgs" ++ '/' :: str "doc-a") ++ '/' :: fname (0 + 1) (k + 1) e) = some b ∧
        b ≠ [] :=
  claim_C1 exPageA (str "doc-a") 0 (str "imgs") [exImgOk] [] rfl
    (fun im him => by
      rw [List.mem_singleton.1 him]
      exact ⟨[7, 8], str "png", rfl, by decide⟩)

/-- Counterexample to C1 as stated: a page with one successfully
extractable image whose payload is empty.  The reference line is
emitted and the file exists on disk, but its content is the empty byte
list, i.e. its size is zero — contradicting "all K files exist on disk
with non-zero size". -/
theorem claim_C1_cex :
    extract_images cexPageEmptyImg (str "d") 0 (str "imgs") =
      .ok ([str "![Image](images/d/page1_img1.png)"],
        ⟨[str "imgs/d"], [(str "imgs/d/page1_img1.png", ([] : Bytes))], []⟩) ∧
    (∀ im ∈ [(⟨.ok ([], str "png")⟩ : ImageInfo)], ∃ b e, im.extract = .ok (b, e)) ∧
    fsRead (applyWrites []
        [(str "imgs/d/page1_img1.png", ([] : Bytes))]) (str "imgs/d/page1_img1.png") =
      some [] ∧
    ¬ 0 < ([] : Bytes).length := by
  refine ⟨by decide, ?_, by decide, by decide⟩
  intro im him
  rw [List.mem_singleton.1 him]
  exact ⟨[], str "png", rfl⟩

theorem mdWrites_append (od id : PyStr) (xs ys : List PDFFile) :
    mdWrites od id (xs ++ ys) = mdWrites od id xs ++ mdWrites od id ys :=
  List.filterMap_append ..

/-- Claim C4: an exception while converting one file is caught by the
batch loop, a line naming the file and the error message is printed,
and the batch's markdown output is exactly what it would be without the
failing file — the remaining files are all still processed and nothing
aborts (the loop is a total function; no failure escapes it, matching
the always-successful exit status). -/
theorem claim_C4 (od id : PyStr) (pre suf : List PDFFile) (bad : PDFFile)
    (eff : Effects) (er : PyStr) (st : BatchState)
    (hconv : convert_pdf_to_markdown bad od id = (eff, .error er)) :
    ((str "  Error converting " ++ bad.name ++ str ": " ++ er) ∈
      (mainLoop od id (pre ++ bad :: suf) st).logs) ∧
    (mainLoop od id (pre ++ bad :: suf) st).mdfs =
      (mainLoop od id (pre ++ suf) st).mdfs := by
  constructor
  · rw [mainLoop_append]
    have hstep : mainLoop od id (bad :: suf) (mainLoop od id pre st) =
        mainLoop od id suf (runFile od id (mainLoop od id pre st) bad) := rfl
    rw [hstep]
    apply mainLoop_logs_mono
    unfold runFile
    rw [hconv]
    simp
  · rw [mainLoop_mdfs, mainLoop_mdfs, mdWrites_append, mdWrites_append]
    have hbad : mdWrites od id (bad :: suf) = mdWrites od id suf := by
      unfold mdWrites
      simp [List.filterMap_cons, hconv]
    rw [hbad]

/-- Witness for C4: a single-file batch whose one file fails; the error
line is logged and no markdown file is written. -/
theorem claim_C4_witness :
    ((str "  Error converting " ++ str "bad.pdf" ++ str ": " ++ str "boom") ∈
      (mainLoop (str "out") (str "imgs") ([] ++ exPdfBad :: []) ⟨[], [], []⟩).logs) ∧
    (mainLoop (str "out") (str "imgs") ([] ++ exPdfBad :: []) ⟨[], [], []⟩).mdfs =
      (mainLoop (str "out") (str "imgs") ([] ++ []) ⟨[], [], []⟩).mdfs :=
  claim_C4 (str "out") (str "imgs") [] [] exPdfBad exBadEff (str "boom")
    ⟨[], [], []⟩ rfl

/-- Claim C6: running the batch a second time over the same input
files, starting from the filesystem state the first run left behind
(and whatever logs), yields byte-for-byte the same markdown file
contents at every path as the first run did: each output is overwritten
in place and nothing stale accumulates. -/
theorem claim_C6 (od id : PyStr) (files : List PDFFile) (st₁ st₂ : BatchState)
    (hmd : st₂.mdfs = (mainLoop od id files st₁).mdfs) (p : PyStr) :
    fsRead (mainLoop od id files st₂).mdfs p =
      fsRead (mainLoop od id files st₁).mdfs p := by
  rw [mainLoop_mdfs, mainLoop_mdfs, hmd, mainLoop_mdfs]
  rw [fsRead_applyWrites, fsRead_applyWrites]
  cases lastWrite (mdWrites od id files) p <;> rfl

/-- Witness for C6: a one-file batch run twice from the empty
filesystem; the markdown file read back after the second run equals the
one after the first. -/
theorem claim_C6_witness :
    fsRead (mainLoop (str "out") (str "imgs") [exPdfTiny]
        ⟨[], [(str "out/t.md", str "# T\n\n*Converted from: t.pdf*\n\n---\n")], []⟩).mdfs
      (str "out/t.md") =
    fsRead (mainLoop (str "out") (str "imgs") [exPdfTiny] ⟨[], [], []⟩).mdfs
      (str "out/t.md") :=
  claim_C6 (str "out") (str "imgs") [exPdfTiny] ⟨[], [], []⟩
    ⟨[], [(str "out/t.md", str "# T\n\n*Converted from: t.pdf*\n\n---\n")], []⟩
    rfl (str "out/t.md")

/-- Claim C8: the markdown file of a successfully converted document
starts with the title line built from the filename stem by replacing
hyphens with spaces and capitalizing each word; for the stem
`nfse-nacional-manual` the first line of the file is exactly
`# Nfse Nacional Manual`. -/
theorem claim_C8 (pdf : PDFFile) (od id : PyStr) (eff : Effects)
    (mdPath content : PyStr)
    (hconv : convert_pdf_to_markdown pdf od id = (eff, .ok (mdPath, content))) :
    ((str "# " ++ pyTitle (pyReplaceChar '-' ' ' pdf.stem) ++ str "\n") <+: content) ∧
    (pdf.stem = str "nfse-nacional-manual" →
      (splitLines content).head? = some (str "# Nfse Nacional Manual")) := by
  rcases hdoc : pdf.doc with e | pages
  · simp [convert_pdf_to_markdown, hdoc] at hconv
  · simp only [convert_pdf_to_markdown, hdoc] at hconv
    rcases hcp : convertPages pdf.stem id pages 0 with ⟨eff0, res⟩
    rw [hcp] at hconv
    rcases res with e | frags
    · simp at hconv
    · simp only [Prod.mk.injEq, Except.ok.injEq] at hconv
      have hcontent : content =
          (str "# " ++ pyTitle (pyReplaceChar '-' ' ' pdf.stem) ++ str "\n") ++
            '\n' :: joinNL ((str "*Converted from: " ++ pdf.name ++ str "*\n") ::
              str "---\n" :: frags) := by
        rw [← hconv.2.2]
        rfl
      constructor
      · exact ⟨_, hcontent.symm⟩
      · intro hstem
        have htitle : pyTitle (pyReplaceChar '-' ' ' pdf.stem) =
            str "Nfse Nacional Manual" := by
          rw [hstem]
          decide
        rw [hcontent, htitle]
        rw [show str "# " ++ str "Nfse Nacional Manual" ++ str "\n" =
          (str "# Nfse Nacional Manual") ++ '\n' :: [] from rfl]
        rw [List.append_assoc, List.cons_append, List.nil_append,
          splitLines_append_newline]
        rw [splitLines_no_newline (by decide)]
        rfl

/-- Witness for C8 at a zero-page document with the spec's example
stem. -/
theorem claim_C8_witness :
    ((str "# " ++ pyTitle (pyReplaceChar '-' ' ' exPdfNfse.stem) ++ str "\n") <+:
      str "# Nfse Nacional Manual\n\n*Converted from: nfse-nacional-manual.pdf*\n\n---\n") ∧
    (exPdfNfse.stem = str "nfse-nacional-manual" →
      (splitLines (str "# Nfse Nacional Manual\n\n*Converted from: nfse-nacional-manual.pdf*\n\n---\n")).head?
        = some (str "# Nfse Nacional Manual")) :=
  claim_C8 exPdfNfse (str "out") (str "imgs") ⟨[], [], []⟩
    (str "out/nfse-nacional-manual.md")
    (str "# Nfse Nacional Manual\n\n*Converted from: nfse-nacional-manual.pdf*\n\n---\n")
    rfl

/-- Claim C2 (amended): for a document of N pages that all carry
non-empty text after trimming (and whose images, if any, list
successfully), the produced markdown file contains exactly N lines
beginning with `## Page `, and they read `## Page 1` … `## Page N` in
document order, independently of which pages contain images — provided
no trimmed line of any page's own text begins with `## Page `, and the
stem, filename and detected image extensions contain no newline. -/
theorem claim_C2 (pdf : PDFFile) (od id : PyStr) (pages : List Page)
    (hdoc : pdf.doc = .ok pages)
    (hstem : '\n' ∉ pdf.stem) (hname : '\n' ∉ pdf.name)
    (htext : ∀ pg ∈ pages, ∃ t, pg.gettext = .ok t ∧ pyStrip t ≠ [] ∧
      ∀ l ∈ splitLines t, isPageHeading (pyStrip l) = false)
    (himg : ∀ pg ∈ pages, ∃ il, pg.getimages = .ok il ∧
      ∀ im ∈ il, ∀ b e, im.extract = .ok (b, e) → '\n' ∉ e) :
    ∃ eff mdPath content,
      convert_pdf_to_markdown pdf od id = (eff, .ok (mdPath, content)) ∧
      (splitLines content).filter isPageHeading =
        (List.range pages.length).map fun k => str "## Page " ++ natRepr (k + 1) := by
  obtain ⟨eff, frags, hconv, hfilter⟩ :=
    convertPages_filter pdf.stem id hstem pages 0 htext himg
  refine ⟨eff, od ++ '/' :: pdf.stem ++ str ".md",
    joinNL ([str "# " ++ pyTitle (pyReplaceChar '-' ' ' pdf.stem) ++ str "\n",
      str "*Converted from: " ++ pdf.name ++ str "*\n", str "---\n"] ++ frags), ?_, ?_⟩
  · simp only [convert_pdf_to_markdown, hdoc, hconv]
  · rw [splitLines_joinNL _ (by simp)]
    rw [filter_flatten_ph]
    rw [List.map_append, List.map_append, List.flatten_append]
    rw [show (List.map (List.filter isPageHeading)
        (List.map splitLines [str "# " ++ pyTitle (pyReplaceChar '-' ' ' pdf.stem) ++ str "\n",
          str "*Converted from: " ++ pdf.name ++ str "*\n", str "---\n"])).flatten
      = ([str "# " ++ pyTitle (pyReplaceChar '-' ' ' pdf.stem) ++ str "\n",
          str "*Converted from: " ++ pdf.name ++ str "*\n",
          str "---\n"].map fun f => (splitLines f).filter isPageHeading).flatten
      from by rw [List.map_map]; rfl]
    rw [filterPH_header pdf.stem pdf.name hstem hname]
    rw [show (List.map (List.filter isPageHeading) (List.map splitLines frags)).flatten
      = (frags.map fun f => (splitLines f).filter isPageHeading).flatten
      from by rw [List.map_map]; rfl]
    rw [hfilter]
    simp only [List.nil_append]
    apply List.map_congr_left
    intro k hk
    congr 2
    omega

/-- Witness for C2 at a one-page document with ordinary text and one
image. -/
theorem claim_C2_witness :
    ∃ eff mdPath content,
      convert_pdf_to_markdown ⟨str "doc-a", str "doc-a.pdf", .ok [exPageA]⟩
        (str "out") (str "imgs") = (eff, .ok (mdPath, content)) ∧
      (splitLines content).filter isPageHeading =
        (List.range ([exPageA] : List Page).length).map
          fun k => str "## Page " ++ natRepr (k + 1) :=
  claim_C2 ⟨str "doc-a", str "doc-a.pdf", .ok [exPageA]⟩ (str "out") (str "imgs")
    [exPageA] rfl (by decide) (by decide)
    (fun pg hpg => by
      rw [List.mem_singleton.1 hpg]
      exact ⟨str "  Hello \n\n  World  ", rfl, by decide, by decide⟩)
    (fun pg hpg => by
      rw [List.mem_singleton.1 hpg]
      refine ⟨[exImgOk], rfl, ?_⟩
      intro im him b e hbe
      rw [List.mem_singleton.1 him] at hbe
      have h2 : (([7, 8], str "png") : Bytes × PyStr) = (b, e) := Except.ok.inj hbe
      injection h2 with hb he
      rw [← he]
      decide)

/-- Counterexample to C2 as stated: a one-page document (N = 1) whose
page text is non-empty after trimming, all of it being the single line
`## Page 2`.  The conversion succeeds, yet the produced file contains
two lines beginning with `## Page ` (`## Page 1` from the formatter and
`## Page 2` from the page's own text), not the one line the claim
demands. -/
theorem claim_C2_cex :
    pyStrip (str "## Page 2") ≠ [] ∧
    convert_pdf_to_markdown cexPdfHeading (str "out") (str "imgs") =
      (⟨[], [], []⟩, .ok (str "out/d.md",
        str "# D\n\n*Converted from: d.pdf*\n\n---\n\n\n## Page 1\n\n## Page 2\n\n")) ∧
    (splitLines (str "# D\n\n*Converted from: d.pdf*\n\n---\n\n\n## Page 1\n\n## Page 2\n\n")).filter
        isPageHeading =
      [str "## Page 1", str "## Page 2"] ∧
    (splitLines (str "# D\n\n*Converted from: d.pdf*\n\n---\n\n\n## Page 1\n\n## Page 2\n\n")).filter
        isPageHeading ≠
      (List.range 1).map (fun k => str "## Page " ++ natRepr (k + 1)) := by
  refine ⟨by decide, by decide, by decide, by decide⟩
